import Mathlib

/-!
Verification of the scoreboard-aggregation and README-splicing scripts of a
coding-challenge repository (scripts/generate_main_scoreboard.py,
scripts/generate_package_scoreboard.py, scripts/generate_contributor_badges.py).

Strings are modelled as lists of Unicode code points (the values Python
iterates over), so all of Python's slicing, find, split and strip operations
become executable list functions.  Marker and label string literals are taken
verbatim from the source files; generate_main_scoreboard.py stores its
emoji as a double-encoded byte sequence, which decodes to the code points
U+F8FF U+00FC ... embedded below with escape sequences.
-/

namespace SB

/-- Python strings modelled as lists of code points. -/
abbrev Str := List Char

/-- Code points of a Lean string literal (used to write down concrete inputs). -/
def toL (s : String) : Str := s.toList

/-- Whitespace characters removed by Python str.strip() (ASCII range:
space, tab, newline, carriage return, vertical tab, form feed). -/
def isPySpace (c : Char) : Bool :=
  c == ' ' || c == '\t' || c == '\n' || c == '\r' || c.toNat == 11 || c.toNat == 12

/-- Python str.strip(): drop whitespace from both ends. -/
def pyStrip (s : Str) : Str :=
  ((s.dropWhile isPySpace).reverse.dropWhile isPySpace).reverse

/-- Python str.split(sep) for a one-character separator: splits at every
occurrence of the separator and keeps empty fields. -/
def splitOnChar (sep : Char) : Str → List Str
  | [] => [[]]
  | c :: t =>
    let r := splitOnChar sep t
    if c = sep then [] :: r
    else
      match r with
      | h :: r' => (c :: h) :: r'
      | [] => [[c]]

/-- Python str.find(pat): index of the first occurrence of pat, as an Option
(Python returns -1 when there is none). -/
def findSub (s pat : Str) : Option Nat :=
  match s with
  | [] => if pat.isEmpty then some 0 else none
  | c :: t => if pat.isPrefixOf (c :: t) then some 0 else (findSub t pat).map (· + 1)

/-- Python's containment test pat in s. -/
def occursB (pat s : Str) : Bool := (findSub s pat).isSome

/-- Python str.find(pat, i): first occurrence at or after index i. -/
def findSubFrom (s pat : Str) (i : Nat) : Option Nat :=
  (findSub (s.drop i) pat).map (· + i)

/-- Python str.find(c, i) for a single character. -/
def findCharFrom (s : Str) (c : Char) (i : Nat) : Option Nat :=
  findSubFrom s [c] i

/-- Python str.isdigit() restricted to ASCII decimal digits (the only digits
that occur in the scoreboard data). -/
def strAllDigits (s : Str) : Bool := !s.isEmpty && s.all Char.isDigit

/-- Decimal value of a list of digit characters. -/
def digitsVal (ds : Str) : Nat := ds.foldl (fun a c => 10 * a + (c.toNat - 48)) 0

/-- The parsers' count extraction int(''.join(filter(str.isdigit, s))):
keep exactly the digit characters and read them as a decimal number;
int('') raises ValueError, modelled as none. -/
def pyIntOfDigits (s : Str) : Option Nat :=
  let d := s.filter Char.isDigit
  if d.isEmpty then none else some (digitsVal d)

/-- The badge generator's strict int(s): succeeds only when the (already
stripped) field consists entirely of digits.  (Python's int also accepts a
sign, which never occurs in test-count fields.) -/
def pyIntStrict (s : Str) : Option Nat :=
  if strAllDigits s then some (digitsVal s) else none

/-- The completion guard of parse_scoreboard_file, line 47:
passed_tests > 0 and passed_tests == total_tests. -/
def completes (p t : Nat) : Bool := decide (0 < p) && p == t

/-- Python set.add on a duplicate-free list: membership-tested insertion. -/
def setAdd (users : List Str) (u : Str) : List Str :=
  if u ∈ users then users else users ++ [u]

/-- Row extraction of parse_scoreboard_file (lines 24-46): all the guards
before the completion test.  Returns (username, passed, total) when the line
is a parseable data row, none on any of the skip/continue paths:
empty line, header/separator detection ('Username' in line, '---' in line,
leading '#'), no '|', fewer than 4 fields, empty/placeholder/numeric
username, or unparseable test counts. -/
def parsedRow (line : Str) : Option (Str × Nat × Nat) :=
  if (pyStrip line).isEmpty || occursB (toL "Username") line ||
      occursB (toL "---") line || ['#'].isPrefixOf line then
    none
  else if line.contains '|' then
    let parts := (splitOnChar '|' line).map pyStrip
    if 4 ≤ parts.length then
      let username := parts.getD 1 []
      if username.isEmpty || username == toL "------" || strAllDigits username then
        none
      else
        match pyIntOfDigits (parts.getD 2 []), pyIntOfDigits (parts.getD 3 []) with
        | some p, some t => some (username, p, t)
        | _, _ => none
    else none
  else none

/-- One line of parse_scoreboard_file's loop: a parseable row is added to the
user set exactly when the completion guard holds; every continue path leaves
the set unchanged. -/
def scoreboardLineUsers (users : List Str) (line : Str) : List Str :=
  match parsedRow line with
  | some (u, p, t) => if completes p t then setAdd users u else users
  | none => users

/-- parse_scoreboard_file of generate_main_scoreboard.py applied to the file
content: strip, split into lines, scan every line, collecting the set of
usernames that completed the challenge (set modelled as first-seen-ordered
duplicate-free list; only membership and cardinality are ever used). -/
def parse_scoreboard_file (content : Str) : List Str :=
  (splitOnChar '\n' (pyStrip content)).foldl scoreboardLineUsers []

/-- parse_package_scoreboard_file of generate_package_scoreboard.py: its body
(lines 13-63) is token-for-token identical to parse_scoreboard_file. -/
def parse_package_scoreboard_file (content : Str) : List Str :=
  parse_scoreboard_file content

/-! Badge generator scan (generate_contributor_badges.py,
BadgeGenerator.scan_classic_challenges lines 64-79): a per-row counting scan
over a dict username -> completion count, modelled as an association list. -/

/-- Python user_completions.get(username, 0). -/
def getCount (m : List (Str × Nat)) (u : Str) : Nat :=
  match m.find? (fun p => p.1 == u) with
  | some p => p.2
  | none => 0

/-- Python dict assignment user_completions[username] = n. -/
def setCount (m : List (Str × Nat)) (u : Str) (n : Nat) : List (Str × Nat) :=
  match m with
  | [] => [(u, n)]
  | (k, v) :: t => if k == u then (u, n) :: t else (k, v) :: setCount t u n

/-- The badge scan's per-row update
user_completions[username] = user_completions.get(username, 0) + 1. -/
def bumpCount (m : List (Str × Nat)) (u : Str) : List (Str × Nat) :=
  setCount m u (getCount m u + 1)

/-- Row extraction of scan_classic_challenges (lines 67-73): requires at
least four '|' characters, at least four fields, a non-empty username not
starting with '-', and the passed/total fields to parse with strict int. -/
def badgeRow (line : Str) : Option (Str × Nat × Nat) :=
  if line.contains '|' && 4 ≤ line.count '|' then
    let parts := (splitOnChar '|' line).map pyStrip
    if 4 ≤ parts.length && !(parts.getD 1 []).isEmpty &&
        !(['-'].isPrefixOf (parts.getD 1 [])) then
      match pyIntStrict (pyStrip (parts.getD 2 [])), pyIntStrict (pyStrip (parts.getD 3 [])) with
      | some p, some t => some (pyStrip (parts.getD 1 []), p, t)
      | _, _ => none
    else none
  else none

/-- One line of the badge scan's loop: the completion guard (line 76) is
passed_tests == total_tests and total_tests > 0, and a qualifying row
increments the username's count by one (no set semantics). -/
def badgeLineStep (m : List (Str × Nat)) (line : Str) : List (Str × Nat) :=
  match badgeRow line with
  | some (u, p, t) => if p == t && decide (0 < t) then bumpCount m u else m
  | none => m

/-- The badge scan of one scoreboard file's content (content.split('\n') with
no strip, line 65), starting from the accumulated counts m0. -/
def scan_classic_rows (m0 : List (Str × Nat)) (content : Str) : List (Str × Nat) :=
  (splitOnChar '\n' content).foldl badgeLineStep m0

/-! README splicing.  The update functions read README.md, locate markers and
either rewrite a span or insert before a fallback position, then write the
file.  They are modelled as pure functions from the rendered scoreboard
content and the current document to an Option of the new document; none is
the failure path (return False before any write, which main() turns into a
non-zero process exit, leaving the file untouched). -/

/-- Start marker of update_readme_with_scoreboard (line 483).  The source
file stores the trophy emoji double-encoded; these are its literal code
points. -/
def cStartMarker : Str := toL "## üèÜ **Top 10 Leaderboard**"

/-- End marker of update_readme_with_scoreboard (line 484), a section
heading (the star emoji again double-encoded in the source). -/
def cEndMarker : Str := toL "## üåü Key Features"

/-- update_readme_with_scoreboard of generate_main_scoreboard.py
(lines 470-515): if both markers occur, replace from the start marker up to
(excluding) the end marker with the new content plus a newline; otherwise
fall back to inserting before the end-marker heading (the code searches for
the same string again), and fail when that is absent too. -/
def update_readme_with_scoreboard (G doc : Str) : Option Str :=
  match findSub doc cStartMarker, findSub doc cEndMarker with
  | some s, some e => some (doc.take s ++ G ++ ['\n'] ++ doc.drop e)
  | _, _ =>
    match findSub doc cEndMarker with
    | some k => some (doc.take k ++ G ++ ['\n'] ++ doc.drop k)
    | none => none

/-- Start marker of update_readme_with_package_scoreboard (line 343). -/
def pStartMarker : Str := toL "## 🚀 Package Challenges Leaderboard"

/-- End marker of update_readme_with_package_scoreboard (line 344). -/
def pEndMarker : Str := toL "<!-- END_PACKAGE_LEADERBOARD -->"

/-- Fallback insertion marker: end of the classic leaderboard (line 352). -/
def classicEndSentinel : Str := toL "<!-- END_CLASSIC_LEADERBOARD -->"

/-- Fallback insertion marker: plain Key Features heading (line 353). -/
def keyFeaturesHeader : Str := toL "## Key Features"

/-- Truncation pattern tried second when the end marker is absent. -/
def gettingStartedHeader : Str := toL "## Getting Started"

/-- Truncation pattern tried third when the end marker is absent. -/
def challengeCategoriesHeader : Str := toL "## Challenge Categories"

/-- Replacement end when the package start marker is present but the end
marker is absent (lines 370-383): the first of the three next-section
patterns, tried in priority order, that occurs after the start marker;
end of document when none does. -/
def pkgNextSectionEnd (doc : Str) (s : Nat) : Nat :=
  match findSubFrom doc keyFeaturesHeader (s + pStartMarker.length) with
  | some p => p
  | none =>
    match findSubFrom doc gettingStartedHeader (s + pStartMarker.length) with
    | some p => p
    | none =>
      match findSubFrom doc challengeCategoriesHeader (s + pStartMarker.length) with
      | some p => p
      | none => doc.length

/-- update_readme_with_package_scoreboard of generate_package_scoreboard.py
(lines 324-401).  With the start marker present the replaced span runs to
the end of the end-marker line (content.find('\n', end_pos) + 1; Python's
find returns -1 when there is no newline, making the bound 0 — modelled
verbatim).  With the start marker absent the content is inserted after the
classic sentinel's line, or before the plain Key Features heading, or the
update fails. -/
def update_readme_with_package_scoreboard (G doc : Str) : Option Str :=
  match findSub doc pStartMarker with
  | none =>
    match findSub doc classicEndSentinel with
    | some ce =>
      let ins := match findCharFrom doc '\n' ce with
        | some q => q + 1
        | none => 0
      some (doc.take ins ++ G ++ ['\n'] ++ doc.drop ins)
    | none =>
      match findSub doc keyFeaturesHeader with
      | some kf => some (doc.take kf ++ G ++ ['\n'] ++ doc.drop kf)
      | none => none
  | some s =>
    let e := match findSub doc pEndMarker with
      | none => pkgNextSectionEnd doc s
      | some e0 =>
        match findCharFrom doc '\n' e0 with
        | some q => q + 1
        | none => 0
    some (doc.take s ++ G ++ doc.drop e)

/-! Achievement tiers and completion-rate rendering. -/

/-- Master label of generate_html_leaderboard (count at least 20), with the
source file's literal (double-encoded) emoji code points. -/
def masterLabel : String := "üî• Master"

/-- Expert label (count at least 15). -/
def expertLabel : String := "‚≠ê Expert"

/-- Advanced label (count at least 10). -/
def advancedLabel : String := "üí™ Advanced"

/-- Intermediate label (count at least 5). -/
def intermediateLabel : String := "üöÄ Intermediate"

/-- Beginner label (all smaller counts). -/
def beginnerLabel : String := "üå± Beginner"


/-- Achievement label of generate_html_leaderboard (lines 378-392): a pure
function of the completion count with cutoffs 20/15/10/5, highest first.
The label strings are the source file's literal (double-encoded) code
points. -/
def generate_html_achievement (count : Nat) : String :=
  if 20 ≤ count then masterLabel
  else if 15 ≤ count then expertLabel
  else if 10 ≤ count then advancedLabel
  else if 5 ≤ count then intermediateLabel
  else beginnerLabel

/-- Completion-rate rendering f-string (count / total * 100):.1f rendered to
one decimal place, computed exactly over rationals as tenths of a percent
rounded to nearest (the float pipeline agrees away from exact ties, and
66.666... is not a tie). -/
def completion_rate_str (count total : Nat) : String :=
  let tenths := (count * 2000 + total) / (2 * total)
  toString (tenths / 10) ++ "." ++ toString (tenths % 10) ++ "%"

/-- BadgeGenerator.get_achievement_level (lines 31-42): looks the levels up
highest-first, requiring both the minimum challenge count and the minimum
completion rate (rate = solved / total * 100, or 0 when total = 0; the
comparison rate >= r is the exact rational solved * 100 >= r * total).
Returns (level, color, emoji) as in the source. -/
def get_achievement_level (solved total : Nat) : String × String × String :=
  let rateOk : Nat → Bool := fun r =>
    if total == 0 then decide (r = 0) else decide (r * total ≤ solved * 100)
  if 20 ≤ solved && rateOk 65 then ("Master", "gold", "🏆")
  else if 15 ≤ solved && rateOk 50 then ("Expert", "blue", "🎯")
  else if 10 ≤ solved && rateOk 30 then ("Advanced", "orange", "⚡")
  else if 1 ≤ solved && rateOk 0 then ("Beginner", "97ca00", "🌱")
  else ("Beginner", "97ca00", "🌱")

/-! Aggregated ranking (generate_main_scoreboard.py lines 130-132 and
generate_package_scoreboard.py lines 161-163):
sorted(user_completions.items(), key=lambda x: (-x[1]['count'], x[0])).
Only the username and the count take part in the key, so a ranked entry is
modelled as a (username, count) pair.  Python's sorted is a stable sort by
the key tuple; it is modelled by a stable insertion sort with the
corresponding boolean "key not greater" comparator. -/

/-- Comparator of the ranking sort: a sorts no later than b when a's key
tuple (-count, username) is not greater than b's, i.e. when it is not the
case that b's count is larger, or counts tie and b's username is
lexicographically smaller. -/
def keyLe (a b : Str × Nat) : Bool :=
  !(decide (a.2 < b.2) || (b.2 == a.2 && decide (b.1 < a.1)))

/-- Stable insertion of one element into a sorted list. -/
def insertLe (le : Str × Nat → Str × Nat → Bool) (x : Str × Nat) :
    List (Str × Nat) → List (Str × Nat)
  | [] => [x]
  | y :: t => if le x y then x :: y :: t else y :: insertLe le x t

/-- Stable sort by the comparator (right fold keeps the original relative
order of key-equal elements, as Python's sorted does). -/
def sortByLe (le : Str × Nat → Str × Nat → Bool) (l : List (Str × Nat)) :
    List (Str × Nat) :=
  l.foldr (insertLe le) []

/-- The scripts' sorted_users ranking. -/
def sorted_users (l : List (Str × Nat)) : List (Str × Nat) := sortByLe keyLe l

/-- The ranking order stated by the specification: A precedes B iff A's
count is larger, or counts tie and A's username is lexicographically
smaller. -/
def userBefore (a b : Str × Nat) : Prop :=
  b.2 < a.2 ∨ (a.2 = b.2 ∧ a.1 < b.1)

instance (a b : Str × Nat) : Decidable (userBefore a b) := by
  unfold userBefore; infer_instance

/-! Shared helper lemmas. -/

theorem completes_iff (p t : Nat) : completes p t = true ↔ (p = t ∧ 0 < t) := by
  unfold completes
  constructor
  · intro h
    simp only [Bool.and_eq_true, decide_eq_true_eq, beq_iff_eq] at h
    omega
  · intro h
    simp only [Bool.and_eq_true, decide_eq_true_eq, beq_iff_eq]
    omega

theorem setAdd_mem (users : List Str) (u v : Str) :
    v ∈ setAdd users u ↔ (v ∈ users ∨ v = u) := by
  unfold setAdd
  by_cases h : u ∈ users
  · simp only [if_pos h]
    constructor
    · intro hv; exact Or.inl hv
    · rintro (hv | rfl)
      · exact hv
      · exact h
  · simp [if_neg h]

theorem setAdd_nodup (users : List Str) (u : Str) (h : users.Nodup) :
    (setAdd users u).Nodup := by
  unfold setAdd
  by_cases hm : u ∈ users
  · simpa [if_pos hm]
  · rw [if_neg hm, List.nodup_append]
    refine ⟨h, List.nodup_singleton u, ?_⟩
    intro a ha hb
    rw [List.mem_singleton] at hb
    subst hb
    exact hm ha

theorem scoreboardLineUsers_nodup (users : List Str) (line : Str) (h : users.Nodup) :
    (scoreboardLineUsers users line).Nodup := by
  unfold scoreboardLineUsers
  cases hr : parsedRow line with
  | none => exact h
  | some r =>
    obtain ⟨u, p, t⟩ := r
    by_cases hc : completes p t = true
    · simp only [hc, if_pos]
      exact setAdd_nodup users u h
    · simp only [hc]
      simpa using h

theorem foldl_scoreboard_nodup (lines : List Str) (users : List Str) (h : users.Nodup) :
    (lines.foldl scoreboardLineUsers users).Nodup := by
  induction lines generalizing users with
  | nil => exact h
  | cons l t ih => exact ih _ (scoreboardLineUsers_nodup users l h)

theorem getCount_setCount (m : List (Str × Nat)) (u : Str) (n : Nat) :
    getCount (setCount m u n) u = n := by
  induction m with
  | nil => simp [setCount, getCount, List.find?]
  | cons kv t ih =>
    obtain ⟨k, v⟩ := kv
    by_cases h : k == u
    · simp [setCount, h, getCount, List.find?]
    · simp only [setCount, h]
      rw [if_neg (by simp_all)]
      simp only [getCount, List.find?]
      rw [show ((k, v).1 == u) = false by simpa using h]
      exact ih

/-! Claim theorems. -/

/-- C1: a parsed scoreboard row's username is added to the completion set iff
passed = total and total > 0; the code's guard passed > 0 and passed = total
is equivalent to that condition; rows failing it contribute nothing; and the
two-row example yields exactly the set containing alice. -/
theorem claim1_completion_rule :
    (∀ p t : Nat, completes p t = true ↔ (p = t ∧ 0 < t)) ∧
    (∀ (users : List Str) (line u : Str) (p t : Nat),
      parsedRow line = some (u, p, t) →
      (u ∈ scoreboardLineUsers users line ↔ (u ∈ users ∨ (p = t ∧ 0 < t)))) ∧
    (∀ (users : List Str) (line u : Str) (p t : Nat),
      parsedRow line = some (u, p, t) → completes p t = false →
      scoreboardLineUsers users line = users) ∧
    parse_scoreboard_file (toL "| alice | 5 | 5 |\n| bob | 3 | 5 |") = [toL "alice"] := by
  refine ⟨completes_iff, ?_, ?_, by decide⟩
  · intro users line u p t h
    unfold scoreboardLineUsers
    rw [h]
    dsimp only
    by_cases hc : completes p t = true
    · rw [if_pos hc, setAdd_mem]
      rw [completes_iff] at hc
      constructor
      · intro _; exact Or.inr hc
      · intro _; exact Or.inr rfl
    · rw [if_neg hc]
      have : ¬ (p = t ∧ 0 < t) := fun hpt => hc ((completes_iff p t).mpr hpt)
      constructor
      · intro hm; exact Or.inl hm
      · rintro (hm | hpt)
        · exact hm
        · exact absurd hpt this
  · intro users line u p t h hc
    unfold scoreboardLineUsers
    rw [h]
    dsimp only
    rw [hc]
    simp

/-- C1 witness: the row bob 3 of 5 satisfies the hypotheses and contributes
no completion. -/
theorem claim1_completion_rule_witness :
    parsedRow (toL "| bob | 3 | 5 |") = some (toL "bob", 3, 5) ∧
    ((toL "bob") ∈ scoreboardLineUsers [] (toL "| bob | 3 | 5 |") ↔
      ((toL "bob") ∈ ([] : List Str) ∨ ((3 : Nat) = 5 ∧ (0 : Nat) < 5))) :=
  ⟨by decide, claim1_completion_rule.2.1 [] (toL "| bob | 3 | 5 |") (toL "bob") 3 5 (by decide)⟩

/-- C10: header and separator detection is an unanchored substring match:
any line containing the substring Username or the substring --- anywhere, or
starting with the character #, is skipped before field parsing, so an
otherwise qualifying data row whose text contains those substrings
contributes no completion — in both scoreboard parsers. -/
theorem claim10_header_skip :
    (∀ (users : List Str) (line : Str), occursB (toL "---") line = true →
      scoreboardLineUsers users line = users) ∧
    (∀ (users : List Str) (line : Str), occursB (toL "Username") line = true →
      scoreboardLineUsers users line = users) ∧
    (∀ (users : List Str) (line : Str), ['#'].isPrefixOf line = true →
      scoreboardLineUsers users line = users) ∧
    parse_scoreboard_file (toL "| a---b | 5 | 5 |") = [] ∧
    parse_package_scoreboard_file (toL "| UsernameOfMine | 7 | 7 |") = [] := by
  refine ⟨?_, ?_, ?_, by decide, by decide⟩
  · intro users line h
    unfold scoreboardLineUsers parsedRow
    rw [h]
    simp
  · intro users line h
    unfold scoreboardLineUsers parsedRow
    rw [h]
    simp
  · intro users line h
    unfold scoreboardLineUsers parsedRow
    rw [h]
    simp

/-- C10 witness: a concrete qualifying-looking row whose username contains
--- is skipped. -/
theorem claim10_header_skip_witness :
    occursB (toL "---") (toL "| a---b | 5 | 5 |") = true ∧
    scoreboardLineUsers [] (toL "| a---b | 5 | 5 |") = [] :=
  ⟨by decide, claim10_header_skip.1 [] (toL "| a---b | 5 | 5 |") (by decide)⟩

/-- C8 counterexample: the claim asserts that every component parsing
scoreboard rows, including the badge generator's scan, parses a field such
as 6 tests as the integer 6.  The badge generator instead uses strict int()
(line 72), so the row with fields 6 tests yields no completion there, while
the scoreboard parser does accept it. -/
theorem claim8_digit_extraction_cex :
    getCount (scan_classic_rows [] (toL "| alice | 6 tests | 6 tests |")) (toL "alice") = 0 ∧
    parse_scoreboard_file (toL "| alice | 6 tests | 6 tests |") = [toL "alice"] := by
  constructor
  · decide
  · decide

/-- C8 (amended): the set-based scoreboard parsers extract exactly the digit
characters of the passed/total fields (so 6 tests parses as 6) and a field
without digits makes the row contribute nothing while the scan of the
remaining rows continues; the badge generator's scan instead parses the
fields with strict int(), rejecting any field with non-digit text, also
skipping such rows without aborting. -/
theorem claim8_digit_extraction_amended :
    pyIntOfDigits (toL "6 tests") = some 6 ∧
    pyIntStrict (toL "6 tests") = none ∧
    (∀ (s d : Str), s.filter Char.isDigit = d → d ≠ [] →
      pyIntOfDigits s = some (digitsVal d)) ∧
    (∀ s : Str, s.filter Char.isDigit = [] → pyIntOfDigits s = none) ∧
    (∀ (init : List Str) (pre post : List Str) (line : Str),
      (∀ m, scoreboardLineUsers m line = m) →
      List.foldl scoreboardLineUsers init (pre ++ line :: post) =
        List.foldl scoreboardLineUsers init (pre ++ post)) ∧
    (∀ (users : List Str) (line : Str), parsedRow line = none →
      scoreboardLineUsers users line = users) ∧
    (∀ (m : List (Str × Nat)) (line : Str), badgeRow line = none →
      badgeLineStep m line = m) ∧
    getCount (scan_classic_rows [] (toL "| alice | 6 tests | 6 tests |")) (toL "alice") = 0 := by
  refine ⟨by decide, by decide, ?_, ?_, ?_, ?_, ?_, by decide⟩
  · intro s d hd hne
    unfold pyIntOfDigits
    rw [hd]
    rw [if_neg (by simpa using hne)]
  · intro s hd
    unfold pyIntOfDigits
    rw [hd]
    simp
  · intro init pre post line h
    rw [List.foldl_append, List.foldl_append, List.foldl_cons, h]
  · intro users line h
    unfold scoreboardLineUsers
    rw [h]
  · intro m line h
    unfold badgeLineStep
    rw [h]

/-- C8 witness: a row whose passed field has no digits is skipped and the
scan of the remaining rows still collects the later completion. -/
theorem claim8_digit_extraction_witness :
    pyIntOfDigits (toL "five") = none ∧
    List.foldl scoreboardLineUsers []
        ([] ++ (toL "| x | five | 5 |") :: [toL "| y | 5 | 5 |"]) =
      List.foldl scoreboardLineUsers [] ([] ++ [toL "| y | 5 | 5 |"]) ∧
    pyIntOfDigits (toL "a6b7") = some (digitsVal (toL "67")) :=
  ⟨claim8_digit_extraction_amended.2.2.2.1 (toL "five") (by decide),
   claim8_digit_extraction_amended.2.2.2.2.1 [] [] [toL "| y | 5 | 5 |"]
     (toL "| x | five | 5 |")
     (fun m => claim8_digit_extraction_amended.2.2.2.2.2.1 m
       (toL "| x | five | 5 |") (by decide)),
   claim8_digit_extraction_amended.2.2.1 (toL "a6b7") (toL "67") (by decide) (by decide)⟩

/-- C2 counterexample: two identical qualifying rows for alice in one
scoreboard contribute one completion to the set-based parser but two to the
badge generator's per-row counting scan (lines 76-77 increment on every
qualifying row), contradicting the claim that every aggregating component
counts a duplicate row once. -/
theorem claim2_duplicate_rows_cex :
    List.count (toL "alice")
        (parse_scoreboard_file (toL "| alice | 5 | 5 |\n| alice | 5 | 5 |")) = 1 ∧
    getCount (scan_classic_rows [] (toL "| alice | 5 | 5 |\n| alice | 5 | 5 |"))
        (toL "alice") = 2 := by
  refine ⟨by decide, by decide⟩

/-- C2 (amended): within one scoreboard the set-based parsers record each
qualifying username at most once regardless of duplicates (the result is
duplicate-free), while the badge generator's scan adds one count per
qualifying row, so duplicate rows accumulate (two for the doubled alice
row). -/
theorem claim2_duplicate_rows_amended :
    (∀ content : Str, (parse_scoreboard_file content).Nodup) ∧
    (∀ content u : Str, List.count u (parse_scoreboard_file content) ≤ 1) ∧
    (∀ (m : List (Str × Nat)) (line u : Str) (p t : Nat),
      badgeRow line = some (u, p, t) → p = t → 0 < t →
      getCount (badgeLineStep m line) u = getCount m u + 1) ∧
    getCount (scan_classic_rows [] (toL "| alice | 5 | 5 |\n| alice | 5 | 5 |"))
        (toL "alice") = 2 := by
  refine ⟨?_, ?_, ?_, by decide⟩
  · intro content
    unfold parse_scoreboard_file
    exact foldl_scoreboard_nodup _ [] List.nodup_nil
  · intro content u
    have hnd : (parse_scoreboard_file content).Nodup := by
      unfold parse_scoreboard_file
      exact foldl_scoreboard_nodup _ [] List.nodup_nil
    generalize parse_scoreboard_file content = l at hnd
    induction l with
    | nil => simp
    | cons a t ih =>
      obtain ⟨ha, ht⟩ := List.nodup_cons.mp hnd
      by_cases he : u = a
      · subst he
        rw [List.count_cons_self, List.count_eq_zero_of_not_mem ha]
      · rw [List.count_cons_of_ne he]
        exact ih ht
  · intro m line u p t h hpt hpos
    unfold badgeLineStep
    rw [h]
    dsimp only
    rw [if_pos (by simp [hpt, hpos])]
    unfold bumpCount
    exact getCount_setCount m u _

/-- C2 witness: one concrete qualifying badge row increments alice's count
from zero to one. -/
theorem claim2_duplicate_rows_witness :
    badgeRow (toL "| alice | 5 | 5 |") = some (toL "alice", 5, 5) ∧
    getCount (badgeLineStep [] (toL "| alice | 5 | 5 |")) (toL "alice") =
      getCount ([] : List (Str × Nat)) (toL "alice") + 1 :=
  ⟨by decide,
   claim2_duplicate_rows_amended.2.2.1 [] (toL "| alice | 5 | 5 |") (toL "alice") 5 5
     (by decide) rfl (by decide)⟩

/-- C9 counterexample: the claim says the achievement tier is a pure
function of the completion count, count at least 20 giving Master, in the
cited badge generator as well; but get_achievement_level also requires a
completion rate of at least 65 percent for Master, so 20 solved of 40 total
yields Expert, not Master. -/
theorem claim9_tier_cex :
    get_achievement_level 20 40 = ("Expert", "blue", "🎯") := by decide

/-- C9 (amended): the leaderboard's tier is a pure function of the count
with fixed cutoffs looked up highest-first (at least 20 Master, 15 Expert,
10 Advanced, 5 Intermediate, else Beginner); the badge generator's tier
additionally requires minimum completion rates (65/50/30 percent) and has
no Intermediate tier, so 20 of 40 gives Expert there; for exactly 20
completions of 30 challenges the tier is Master in both and the completion
rate renders as 66.7 percent. -/
theorem claim9_tier_amended :
    (∀ c, 20 ≤ c → generate_html_achievement c = masterLabel) ∧
    (∀ c, 15 ≤ c → c < 20 → generate_html_achievement c = expertLabel) ∧
    (∀ c, 10 ≤ c → c < 15 → generate_html_achievement c = advancedLabel) ∧
    (∀ c, 5 ≤ c → c < 10 → generate_html_achievement c = intermediateLabel) ∧
    (∀ c, c < 5 → generate_html_achievement c = beginnerLabel) ∧
    (∀ solved total, 0 < total → 20 ≤ solved → 65 * total ≤ solved * 100 →
      get_achievement_level solved total = ("Master", "gold", "🏆")) ∧
    get_achievement_level 20 30 = ("Master", "gold", "🏆") ∧
    completion_rate_str 20 30 = "66.7%" ∧
    get_achievement_level 20 40 = ("Expert", "blue", "🎯") := by
  refine ⟨?_, ?_, ?_, ?_, ?_, ?_, by decide, by decide, by decide⟩
  · intro c h
    unfold generate_html_achievement
    rw [if_pos h]
  · intro c h1 h2
    unfold generate_html_achievement
    rw [if_neg (by omega), if_pos h1]
  · intro c h1 h2
    unfold generate_html_achievement
    rw [if_neg (by omega), if_neg (by omega), if_pos h1]
  · intro c h1 h2
    unfold generate_html_achievement
    rw [if_neg (by omega), if_neg (by omega), if_neg (by omega), if_pos h1]
  · intro c h
    unfold generate_html_achievement
    rw [if_neg (by omega), if_neg (by omega), if_neg (by omega), if_neg (by omega)]
  · intro solved total h0 h20 hrate
    unfold get_achievement_level
    rw [if_pos]
    simp only [Bool.and_eq_true, decide_eq_true_eq]
    constructor
    · exact h20
    · rw [if_neg (by simpa using Nat.pos_iff_ne_zero.mp h0)]
      exact decide_eq_true hrate

/-- C9 witness: counts 25 of 30 hit the Master tier in both components. -/
theorem claim9_tier_witness :
    generate_html_achievement 25 = masterLabel ∧
    get_achievement_level 25 30 = ("Master", "gold", "🏆") :=
  ⟨claim9_tier_amended.1 25 (by decide),
   claim9_tier_amended.2.2.2.2.2.1 25 30 (by decide) (by decide) (by decide)⟩

/-- C5: when a document contains neither the start marker nor any fallback
insertion marker, both update functions take the failure path: they return
none (the scripts return False before any write, leaving the file exactly
as it was, and main() converts that into a non-zero exit). -/
theorem claim5_missing_markers_fail :
    (∀ G doc : Str, findSub doc cStartMarker = none → findSub doc cEndMarker = none →
      update_readme_with_scoreboard G doc = none) ∧
    (∀ G doc : Str, findSub doc pStartMarker = none →
      findSub doc classicEndSentinel = none → findSub doc keyFeaturesHeader = none →
      update_readme_with_package_scoreboard G doc = none) := by
  constructor
  · intro G doc h1 h2
    unfold update_readme_with_scoreboard
    rw [h1, h2]
  · intro G doc h1 h2 h3
    unfold update_readme_with_package_scoreboard
    rw [h1, h2, h3]

/-- C5 witness: a document with no markers at all makes both updates fail. -/
theorem claim5_missing_markers_fail_witness :
    update_readme_with_scoreboard (toL "NEW") (toL "just some text") = none ∧
    update_readme_with_package_scoreboard (toL "NEW") (toL "just some text") = none :=
  ⟨claim5_missing_markers_fail.1 (toL "NEW") (toL "just some text")
     (by decide) (by decide),
   claim5_missing_markers_fail.2 (toL "NEW") (toL "just some text")
     (by decide) (by decide) (by decide)⟩

/-- C6 counterexample: a document containing both sentinel markers named by
the claim (the plain-emoji heading and the classic end comment) is not
rewritten at all: the classic update's real start marker has bold asterisks
and different code points, and its real end marker is the Key Features
heading, so the update fails on this document instead of rewriting the
claimed span. -/
theorem claim6_span_cex :
    occursB (toL "## 🏆 Top 10 Leaderboard")
        (toL "Intro\n## 🏆 Top 10 Leaderboard\nOLD\n<!-- END_CLASSIC_LEADERBOARD -->\nRest") = true ∧
    occursB classicEndSentinel
        (toL "Intro\n## 🏆 Top 10 Leaderboard\nOLD\n<!-- END_CLASSIC_LEADERBOARD -->\nRest") = true ∧
    update_readme_with_scoreboard (toL "NEW")
        (toL "Intro\n## 🏆 Top 10 Leaderboard\nOLD\n<!-- END_CLASSIC_LEADERBOARD -->\nRest") = none := by
  refine ⟨by decide, by decide, by decide⟩

/-- C6 (amended): the classic update's actual span is delimited by its bold,
double-encoded start marker and the Key Features heading (end exclusive);
the package update's span runs from its start marker through the end of the
END_PACKAGE_LEADERBOARD line; every character outside the replaced span is
unchanged (the document's prefix before the span and suffix from the span
end reappear verbatim). -/
theorem claim6_span_amended :
    (∀ (G doc : Str) (s e : Nat),
      findSub doc cStartMarker = some s → findSub doc cEndMarker = some e →
      update_readme_with_scoreboard G doc =
        some (doc.take s ++ G ++ ['\n'] ++ doc.drop e) ∧
      (doc.take s ++ G ++ ['\n'] ++ doc.drop e).take (doc.take s).length = doc.take s ∧
      (doc.take s ++ G ++ ['\n'] ++ doc.drop e).drop ((doc.take s).length + G.length + 1) =
        doc.drop e) ∧
    (∀ (G doc : Str) (s e q : Nat),
      findSub doc pStartMarker = some s → findSub doc pEndMarker = some e →
      findCharFrom doc '\n' e = some q →
      update_readme_with_package_scoreboard G doc =
        some (doc.take s ++ G ++ doc.drop (q + 1)) ∧
      (doc.take s ++ G ++ doc.drop (q + 1)).take (doc.take s).length = doc.take s ∧
      (doc.take s ++ G ++ doc.drop (q + 1)).drop ((doc.take s).length + G.length) =
        doc.drop (q + 1)) := by
  constructor
  · intro G doc s e h1 h2
    refine ⟨?_, ?_, ?_⟩
    · unfold update_readme_with_scoreboard
      rw [h1, h2]
    · simp only [List.append_assoc]
      exact List.take_left' rfl
    · refine List.drop_left' ?_
      simp only [List.length_append, List.length_take, List.length_cons,
        List.length_nil]
  · intro G doc s e q h1 h2 hq
    refine ⟨?_, ?_, ?_⟩
    · unfold update_readme_with_package_scoreboard
      rw [h1]
      dsimp only
      rw [h2]
      dsimp only
      rw [hq]
    · simp only [List.append_assoc]
      exact List.take_left' rfl
    · refine List.drop_left' ?_
      simp only [List.length_append, List.length_take]

/-- C6 witness: concrete replacements for both updates, with the text
outside the span preserved. -/
theorem claim6_span_amended_witness :
    update_readme_with_scoreboard (toL "NEW")
        (toL "A\n" ++ cStartMarker ++ toL "\nOLD\n" ++ cEndMarker ++ toL "\nB") =
      some ((toL "A\n" ++ cStartMarker ++ toL "\nOLD\n" ++ cEndMarker ++ toL "\nB").take 2 ++
        toL "NEW" ++ ['\n'] ++
        (toL "A\n" ++ cStartMarker ++ toL "\nOLD\n" ++ cEndMarker ++ toL "\nB").drop 37) ∧
    update_readme_with_package_scoreboard (toL "NEW")
        (toL "A\n" ++ pStartMarker ++ toL "\nOLD\n" ++ pEndMarker ++ toL "\nB") =
      some ((toL "A\n" ++ pStartMarker ++ toL "\nOLD\n" ++ pEndMarker ++ toL "\nB").take 2 ++
        toL "NEW" ++
        (toL "A\n" ++ pStartMarker ++ toL "\nOLD\n" ++ pEndMarker ++ toL "\nB").drop (74 + 1)) :=
  ⟨(claim6_span_amended.1 (toL "NEW")
      (toL "A\n" ++ cStartMarker ++ toL "\nOLD\n" ++ cEndMarker ++ toL "\nB") 2 37
      (by decide) (by decide)).1,
   (claim6_span_amended.2 (toL "NEW")
      (toL "A\n" ++ pStartMarker ++ toL "\nOLD\n" ++ pEndMarker ++ toL "\nB") 2 42 74
      (by decide) (by decide) (by decide)).1⟩

/-- C7 counterexample: the claim asserts that both splicers, when the start
marker is present and the end marker absent, truncate the replacement at
the next known section header.  The classic splicer has no such logic: with
its start marker present and its end marker absent it fails outright, even
though a known section header (Getting Started) follows. -/
theorem claim7_truncation_cex :
    findSub (cStartMarker ++ toL "\nOLD\n## Getting Started\nREST") cStartMarker = some 0 ∧
    findSub (cStartMarker ++ toL "\nOLD\n## Getting Started\nREST") cEndMarker = none ∧
    update_readme_with_scoreboard (toL "NEW")
        (cStartMarker ++ toL "\nOLD\n## Getting Started\nREST") = none := by
  refine ⟨by decide, by decide, by decide⟩

/-- C7 (amended): only the package splicer truncates when its start marker
is present and its end marker absent, replacing up to the position of the
first pattern that matches when trying, in fixed priority order, the Key
Features, Getting Started and Challenge Categories headings (searched from
just after the start marker), or to end of document when none matches; the
priority order wins over textual position.  The classic splicer instead
fails whenever its end marker is absent. -/
theorem claim7_truncation_amended :
    (∀ (G doc : Str) (s : Nat), findSub doc cStartMarker = some s →
      findSub doc cEndMarker = none →
      update_readme_with_scoreboard G doc = none) ∧
    (∀ (G doc : Str) (s : Nat), findSub doc pStartMarker = some s →
      findSub doc pEndMarker = none →
      update_readme_with_package_scoreboard G doc =
        some (doc.take s ++ G ++ doc.drop (pkgNextSectionEnd doc s))) ∧
    (∀ (doc : Str) (s p : Nat),
      findSubFrom doc keyFeaturesHeader (s + pStartMarker.length) = some p →
      pkgNextSectionEnd doc s = p) ∧
    (∀ (doc : Str) (s p : Nat),
      findSubFrom doc keyFeaturesHeader (s + pStartMarker.length) = none →
      findSubFrom doc gettingStartedHeader (s + pStartMarker.length) = some p →
      pkgNextSectionEnd doc s = p) ∧
    (∀ (doc : Str) (s p : Nat),
      findSubFrom doc keyFeaturesHeader (s + pStartMarker.length) = none →
      findSubFrom doc gettingStartedHeader (s + pStartMarker.length) = none →
      findSubFrom doc challengeCategoriesHeader (s + pStartMarker.length) = some p →
      pkgNextSectionEnd doc s = p) ∧
    (∀ (doc : Str) (s : Nat),
      findSubFrom doc keyFeaturesHeader (s + pStartMarker.length) = none →
      findSubFrom doc gettingStartedHeader (s + pStartMarker.length) = none →
      findSubFrom doc challengeCategoriesHeader (s + pStartMarker.length) = none →
      pkgNextSectionEnd doc s = doc.length) ∧
    update_readme_with_package_scoreboard (toL "NEW")
        (pStartMarker ++ toL "\nOLD\n## Getting Started\nMID\n## Key Features\nTAIL") =
      some (toL "NEW## Key Features\nTAIL") := by
  refine ⟨?_, ?_, ?_, ?_, ?_, ?_, by decide⟩
  · intro G doc s h1 h2
    unfold update_readme_with_scoreboard
    rw [h1, h2]
  · intro G doc s h1 h2
    unfold update_readme_with_package_scoreboard
    rw [h1]
    dsimp only
    rw [h2]
  · intro doc s p h1
    unfold pkgNextSectionEnd
    rw [h1]
  · intro doc s p h1 h2
    unfold pkgNextSectionEnd
    rw [h1, h2]
  · intro doc s p h1 h2 h3
    unfold pkgNextSectionEnd
    rw [h1, h2, h3]
  · intro doc s h1 h2 h3
    unfold pkgNextSectionEnd
    rw [h1, h2, h3]

/-- C7 witness: with the package start marker present and the end marker
absent, the replacement runs to the Getting Started heading when Key
Features is absent. -/
theorem claim7_truncation_witness :
    update_readme_with_package_scoreboard (toL "NEW")
        (pStartMarker ++ toL "\nOLD\n## Getting Started\nREST") =
      some ((pStartMarker ++ toL "\nOLD\n## Getting Started\nREST").take 0 ++ toL "NEW" ++
        (pStartMarker ++ toL "\nOLD\n## Getting Started\nREST").drop
          (pkgNextSectionEnd (pStartMarker ++ toL "\nOLD\n## Getting Started\nREST") 0)) ∧
    pkgNextSectionEnd (pStartMarker ++ toL "\nOLD\n## Getting Started\nREST") 0 = 40 :=
  ⟨claim7_truncation_amended.2.1 (toL "NEW")
     (pStartMarker ++ toL "\nOLD\n## Getting Started\nREST") 0 (by decide) (by decide),
   claim7_truncation_amended.2.2.2.1
     (pStartMarker ++ toL "\nOLD\n## Getting Started\nREST") 0 40 (by decide) (by decide)⟩

/-! Ranking-order lemmas for C4. -/

theorem userBefore_irrefl (a : Str × Nat) : ¬ userBefore a a := by
  unfold userBefore
  rintro (h | ⟨_, h⟩)
  · exact lt_irrefl _ h
  · exact lt_irrefl _ h

theorem userBefore_asymm (a b : Str × Nat) :
    userBefore a b → userBefore b a → False := by
  unfold userBefore
  rintro (h1 | ⟨e1, h1⟩) (h2 | ⟨e2, h2⟩)
  · omega
  · omega
  · omega
  · exact absurd h2 (lt_asymm h1)

theorem userBefore_shift (a b c : Str × Nat) :
    userBefore c a → userBefore c b ∨ userBefore b a := by
  unfold userBefore
  rintro (h | ⟨e, hn⟩)
  · rcases Nat.lt_trichotomy b.2 c.2 with hb | hb | hb
    · exact Or.inl (Or.inl hb)
    · exact Or.inr (Or.inl (by omega))
    · exact Or.inr (Or.inl (by omega))
  · rcases Nat.lt_trichotomy b.2 a.2 with hb | hb | hb
    · exact Or.inl (Or.inl (by omega))
    · rcases lt_trichotomy b.1 a.1 with hn2 | hn2 | hn2
      · exact Or.inr (Or.inr ⟨hb, hn2⟩)
      · refine Or.inl (Or.inr ⟨by omega, ?_⟩)
        rw [← hn2] at hn
        exact hn
      · exact Or.inl (Or.inr ⟨by omega, lt_trans hn hn2⟩)
    · exact Or.inr (Or.inl (by omega))

theorem userBefore_total (a b : Str × Nat) (h : a.1 ≠ b.1) :
    userBefore a b ∨ userBefore b a := by
  unfold userBefore
  rcases Nat.lt_trichotomy a.2 b.2 with hc | hc | hc
  · exact Or.inr (Or.inl hc)
  · rcases lt_trichotomy a.1 b.1 with hn | hn | hn
    · exact Or.inl (Or.inr ⟨hc, hn⟩)
    · exact absurd hn h
    · exact Or.inr (Or.inr ⟨hc.symm, hn⟩)
  · exact Or.inl (Or.inl hc)

theorem keyLe_eq_true_iff (a b : Str × Nat) :
    keyLe a b = true ↔ ¬ userBefore b a := by
  unfold keyLe userBefore
  rw [Bool.not_eq_true']
  rw [Bool.or_eq_false_iff]
  rw [Bool.and_eq_false_iff]
  constructor
  · rintro ⟨h1, h2⟩ (hc | ⟨he, hn⟩)
    · rw [decide_eq_false_iff_not] at h1
      exact h1 hc
    · rcases h2 with h2 | h2
      · rw [beq_eq_false_iff_ne] at h2
        exact h2 he
      · rw [decide_eq_false_iff_not] at h2
        exact h2 hn
  · intro h
    constructor
    · rw [decide_eq_false_iff_not]
      intro hc
      exact h (Or.inl hc)
    · by_cases he : b.2 = a.2
      · right
        rw [decide_eq_false_iff_not]
        intro hn
        exact h (Or.inr ⟨he, hn⟩)
      · left
        rw [beq_eq_false_iff_ne]
        exact he

theorem keyLe_of_not (a b : Str × Nat) (h : ¬ keyLe a b = true) : keyLe b a = true := by
  rw [keyLe_eq_true_iff] at h ⊢
  rw [not_not] at h
  intro hab
  exact userBefore_asymm _ _ h hab

theorem keyLe_trans (a b c : Str × Nat) (h1 : keyLe a b = true) (h2 : keyLe b c = true) :
    keyLe a c = true := by
  rw [keyLe_eq_true_iff] at h1 h2 ⊢
  intro hca
  rcases userBefore_shift a b c hca with h | h
  · exact h2 h
  · exact h1 h

theorem insertLe_perm (le : Str × Nat → Str × Nat → Bool) (x : Str × Nat)
    (l : List (Str × Nat)) : (insertLe le x l).Perm (x :: l) := by
  induction l with
  | nil => exact List.Perm.refl _
  | cons y t ih =>
    unfold insertLe
    by_cases h : le x y = true
    · rw [if_pos h]
    · rw [if_neg h]
      exact (List.Perm.cons y ih).trans (List.Perm.swap x y t)

theorem sortByLe_perm (le : Str × Nat → Str × Nat → Bool) (l : List (Str × Nat)) :
    (sortByLe le l).Perm l := by
  induction l with
  | nil => exact List.Perm.refl _
  | cons a t ih => exact (insertLe_perm le a _).trans (List.Perm.cons a ih)

theorem pairwise_insertLe (x : Str × Nat) (l : List (Str × Nat))
    (h : List.Pairwise (fun a b => keyLe a b = true) l) :
    List.Pairwise (fun a b => keyLe a b = true) (insertLe keyLe x l) := by
  induction l with
  | nil => simp [insertLe]
  | cons y t ih =>
    rw [List.pairwise_cons] at h
    obtain ⟨hy, ht⟩ := h
    unfold insertLe
    by_cases hxy : keyLe x y = true
    · rw [if_pos hxy]
      rw [List.pairwise_cons]
      refine ⟨?_, List.pairwise_cons.mpr ⟨hy, ht⟩⟩
      intro z hz
      rcases List.mem_cons.mp hz with hz | hz
      · rw [hz]
        exact hxy
      · exact keyLe_trans x y z hxy (hy z hz)
    · rw [if_neg hxy]
      rw [List.pairwise_cons]
      refine ⟨?_, ih ht⟩
      intro z hz
      have hz' := (insertLe_perm keyLe x t).mem_iff.mp hz
      rcases List.mem_cons.mp hz' with hz' | hz'
      · rw [hz']
        exact keyLe_of_not x y hxy
      · exact hy z hz'

theorem sortByLe_pairwise (l : List (Str × Nat)) :
    List.Pairwise (fun a b => keyLe a b = true) (sortByLe keyLe l) := by
  induction l with
  | nil => simp [sortByLe]
  | cons a t ih => exact pairwise_insertLe a _ ih

/-- C4: for a finite map of users to completion counts (an association list
with pairwise-distinct usernames), the ranking produced with the scripts'
sort key is a permutation of the input in which entry A precedes entry B iff
count(A) > count(B), or counts tie and username(A) < username(B); being a
pure function of the input, the order is deterministic for identical
inputs. -/
theorem claim4_ranking_order :
    ∀ l : List (Str × Nat), (l.map Prod.fst).Nodup →
      (sorted_users l).Perm l ∧
      ∀ i j : Fin (sorted_users l).length,
        ((i : Nat) < (j : Nat) ↔
          userBefore ((sorted_users l).get i) ((sorted_users l).get j)) := by
  intro l hnd
  have hperm : (sorted_users l).Perm l := sortByLe_perm keyLe l
  have hpw : List.Pairwise (fun a b => keyLe a b = true) (sorted_users l) :=
    sortByLe_pairwise l
  have hndout : ((sorted_users l).map Prod.fst).Nodup :=
    ((hperm.map Prod.fst).symm).nodup hnd
  have hlen : ((sorted_users l).map Prod.fst).length = (sorted_users l).length := by
    rw [List.length_map]
  have hne : ∀ i j : Fin (sorted_users l).length, (i : Nat) ≠ (j : Nat) →
      ((sorted_users l).get i).1 ≠ ((sorted_users l).get j).1 := by
    intro i j hij hcon
    have hi : (i : Nat) < ((sorted_users l).map Prod.fst).length := by
      rw [hlen]; exact i.isLt
    have hj : (j : Nat) < ((sorted_users l).map Prod.fst).length := by
      rw [hlen]; exact j.isLt
    have hgi : ((sorted_users l).map Prod.fst).get ⟨(i : Nat), hi⟩ =
        ((sorted_users l).get i).1 := by
      rw [List.get_map]
    have hgj : ((sorted_users l).map Prod.fst).get ⟨(j : Nat), hj⟩ =
        ((sorted_users l).get j).1 := by
      rw [List.get_map]
    have heq : ((sorted_users l).map Prod.fst).get ⟨(i : Nat), hi⟩ =
        ((sorted_users l).map Prod.fst).get ⟨(j : Nat), hj⟩ := by
      rw [hgi, hgj, hcon]
    have := (hndout.get_inj_iff).mp heq
    exact hij (Fin.mk_eq_mk.mp this)
  have hfwd : ∀ i j : Fin (sorted_users l).length, (i : Nat) < (j : Nat) →
      userBefore ((sorted_users l).get i) ((sorted_users l).get j) := by
    intro i j hij
    have hk := List.pairwise_iff_get.mp hpw i j hij
    have hnub : ¬ userBefore ((sorted_users l).get j) ((sorted_users l).get i) :=
      (keyLe_eq_true_iff _ _).mp hk
    rcases userBefore_total _ _ (hne i j (Nat.ne_of_lt hij)) with h | h
    · exact h
    · exact absurd h hnub
  refine ⟨hperm, ?_⟩
  intro i j
  constructor
  · exact hfwd i j
  · intro hub
    rcases Nat.lt_trichotomy (i : Nat) (j : Nat) with h | h | h
    · exact h
    · exfalso
      have : i = j := Fin.ext h
      rw [this] at hub
      exact userBefore_irrefl _ hub
    · exact absurd hub (fun hub2 => userBefore_asymm _ _ hub2 (hfwd j i h))

/-- C4 demonstration input: three users with a tie on count 2. -/
def rankingDemo : List (Str × Nat) := [(toL "bob", 2), (toL "alice", 3), (toL "carol", 2)]

/-- C4 witness: on the demonstration input the ranking is a permutation and
position 0 precedes position 1 iff the order relation holds there. -/
theorem claim4_ranking_order_witness :
    (sorted_users rankingDemo).Perm rankingDemo ∧
    ((0 : Nat) < (1 : Nat) ↔
      userBefore ((sorted_users rankingDemo).get ⟨0, by decide⟩)
        ((sorted_users rankingDemo).get ⟨1, by decide⟩)) :=
  ⟨(claim4_ranking_order rankingDemo (by decide)).1,
   (claim4_ranking_order rankingDemo (by decide)).2 ⟨0, by decide⟩ ⟨1, by decide⟩⟩

/-! Substring-search lemmas for the idempotence analysis (C3): findSub
computes the first occurrence, occurrences in concatenations, and
border-freeness of the concrete markers. -/

theorem isPrefixOf_eq_true_iff (p s : Str) : p.isPrefixOf s = true ↔ p <+: s :=
  List.isPrefixOf_iff_prefix

theorem findSub_eq_zero (s p : Str) (h : p <+: s) : findSub s p = some 0 := by
  cases s with
  | nil =>
    rw [List.prefix_nil] at h
    rw [h]
    rfl
  | cons c t =>
    unfold findSub
    rw [if_pos ((isPrefixOf_eq_true_iff _ _).mpr h)]

theorem findSub_some (s p : Str) :
    ∀ i, findSub s p = some i →
      p <+: s.drop i ∧ ∀ j, j < i → ¬ p <+: s.drop j := by
  induction s with
  | nil =>
    intro i h
    unfold findSub at h
    by_cases hp : p.isEmpty
    · rw [if_pos hp] at h
      have hi : i = 0 := (Option.some.inj h).symm
      subst hi
      rw [List.isEmpty_iff.mp hp]
      exact ⟨List.nil_prefix, by omega⟩
    · rw [if_neg hp] at h
      exact absurd h (by simp)
  | cons c t ih =>
    intro i h
    unfold findSub at h
    by_cases hp : p.isPrefixOf (c :: t) = true
    · rw [if_pos hp] at h
      have hi : i = 0 := (Option.some.inj h).symm
      subst hi
      exact ⟨by simpa using (isPrefixOf_eq_true_iff _ _).mp hp, by omega⟩
    · rw [if_neg hp] at h
      obtain ⟨i', hi', rfl⟩ := Option.map_eq_some'.mp h
      refine ⟨by simpa [List.drop_succ_cons] using (ih i' hi').1, ?_⟩
      intro j hj
      cases j with
      | zero =>
        intro hc
        exact hp ((isPrefixOf_eq_true_iff _ _).mpr (by simpa using hc))
      | succ j' =>
        rw [List.drop_succ_cons]
        exact (ih i' hi').2 j' (by omega)

theorem findSub_eq_some_of (s p : Str) :
    ∀ i, p <+: s.drop i → (∀ j, j < i → ¬ p <+: s.drop j) →
      findSub s p = some i := by
  induction s with
  | nil =>
    intro i h1 h2
    rw [List.drop_nil, List.prefix_nil] at h1
    have hi : i = 0 := by
      by_contra hne
      exact h2 0 (by omega) (by rw [List.drop_nil, h1])
    subst hi
    rw [h1]
    rfl
  | cons c t ih =>
    intro i h1 h2
    cases i with
    | zero =>
      rw [List.drop_zero] at h1
      unfold findSub
      rw [if_pos ((isPrefixOf_eq_true_iff _ _).mpr h1)]
    | succ i' =>
      have h0 : ¬ p <+: (c :: t) := by
        have := h2 0 (by omega)
        simpa using this
      unfold findSub
      rw [if_neg (fun hh => h0 ((isPrefixOf_eq_true_iff _ _).mp hh))]
      rw [ih i' (by simpa [List.drop_succ_cons] using h1)
        (fun j hj => by
          have := h2 (j + 1) (by omega)
          simpa [List.drop_succ_cons] using this)]
      rfl

theorem findSub_lt_length (s p : Str) (i : Nat) (h : findSub s p = some i)
    (hp : p ≠ []) : i < s.length := by
  by_contra hc
  push_neg at hc
  have h1 := (findSub_some s p i h).1
  rw [List.drop_eq_nil_of_le hc, List.prefix_nil] at h1
  exact hp h1

/-- No occurrence of the pattern p anywhere in x. -/
def noOcc (p x : Str) : Prop := ∀ j, ¬ p <+: x.drop j

theorem noOcc_of_ball (p x : Str) (hp : p ≠ [])
    (h : ∀ j, j < x.length → ¬ p <+: x.drop j) : noOcc p x := by
  intro j hc
  by_cases hj : j < x.length
  · exact h j hj hc
  · push_neg at hj
    rw [List.drop_eq_nil_of_le hj, List.prefix_nil] at hc
    exact hp hc

theorem noOcc_take (doc p : Str) (s e : Nat) (hp : p ≠ []) (hse : s ≤ e)
    (hmin : ∀ j, j < e → ¬ p <+: doc.drop j) : noOcc p (doc.take s) := by
  intro j hc
  by_cases hj : j < (doc.take s).length
  · have hjs : j < s := by
      have := List.length_take s doc
      omega
    have hpre : p <+: doc.drop j := by
      refine hc.trans ?_
      rw [List.drop_take]
      exact ⟨(doc.drop j).drop (s - j), List.take_append_drop _ _⟩
    exact hmin j (by omega) hpre
  · push_neg at hj
    rw [List.drop_eq_nil_of_le hj, List.prefix_nil] at hc
    exact hp hc

theorem prefix_of_append_left (p u v : Str) (h : p <+: u ++ v)
    (hl : p.length ≤ u.length) : p <+: u := by
  obtain ⟨r, hr⟩ := h
  have h1 : p = (u ++ v).take p.length := by
    rw [← hr, List.take_append_eq_append_take, List.take_length,
      show p.length - p.length = 0 by omega, List.take_zero, List.append_nil]
  rw [List.take_append_eq_append_take] at h1
  rw [show p.length - u.length = 0 by omega, List.take_zero, List.append_nil] at h1
  rw [h1]
  exact ⟨u.drop p.length, List.take_append_drop _ _⟩

theorem occurrence_split (p u v : Str) (h : p <+: u ++ v)
    (hl : u.length < p.length) : p.drop u.length <+: v := by
  obtain ⟨r, hr⟩ := h
  have hu : p.take u.length = u := by
    have h1 : (p ++ r).take u.length = (u ++ v).take u.length := by rw [hr]
    rw [List.take_append_eq_append_take, List.take_append_eq_append_take] at h1
    rw [show u.length - p.length = 0 by omega, List.take_zero, List.append_nil] at h1
    rw [List.take_length] at h1
    rw [show u.length - u.length = 0 by omega, List.take_zero, List.append_nil] at h1
    exact h1
  have hv : p.drop u.length ++ r = v := by
    have h2 : (p.take u.length ++ p.drop u.length) ++ r = u ++ v := by
      rw [List.take_append_drop]
      exact hr
    rw [hu, List.append_assoc] at h2
    exact List.append_cancel_left h2
  exact ⟨r, hv⟩

theorem no_occ_left_zone (p u v : Str) (hu : noOcc p u)
    (hcross : ∀ k, k < p.length → 0 < k → ¬ p.drop k <+: v) :
    ∀ j, j < u.length → ¬ p <+: (u ++ v).drop j := by
  intro j hj h
  rw [List.drop_append_eq_append_drop] at h
  rw [show j - u.length = 0 by omega, List.drop_zero] at h
  by_cases hl : p.length ≤ (u.drop j).length
  · exact hu j (prefix_of_append_left p (u.drop j) v h hl)
  · push_neg at hl
    have hsuf := occurrence_split p (u.drop j) v h hl
    have hlen : (u.drop j).length = u.length - j := List.length_drop j u
    refine hcross (u.drop j).length (by omega) (by omega) hsuf

theorem noOcc_append (p u v : Str) (hu : noOcc p u) (hv : noOcc p v)
    (hcross : ∀ k, k < p.length → 0 < k → ¬ p.drop k <+: v) :
    noOcc p (u ++ v) := by
  intro j h
  by_cases hj : j < u.length
  · exact no_occ_left_zone p u v hu hcross j hj h
  · push_neg at hj
    rw [List.drop_append_eq_append_drop, List.drop_eq_nil_of_le hj,
      List.nil_append] at h
    exact hv (j - u.length) h

theorem findSub_append_found (p u v : Str) (m : Nat) (hu : noOcc p u)
    (hcross : ∀ k, k < p.length → 0 < k → ¬ p.drop k <+: v)
    (hv : findSub v p = some m) : findSub (u ++ v) p = some (u.length + m) := by
  apply findSub_eq_some_of
  · rw [List.drop_append_eq_append_drop,
      List.drop_eq_nil_of_le (by omega : u.length ≤ u.length + m),
      List.nil_append, show u.length + m - u.length = m by omega]
    exact (findSub_some v p m hv).1
  · intro j hj h
    by_cases hju : j < u.length
    · exact no_occ_left_zone p u v hu hcross j hju h
    · push_neg at hju
      rw [List.drop_append_eq_append_drop, List.drop_eq_nil_of_le hju,
        List.nil_append] at h
      exact (findSub_some v p m hv).2 (j - u.length) (by omega) h

theorem cross_from_anchor (p q v : Str) (hq : q <+: v) (hlen : p.length ≤ q.length)
    (hno : ∀ k, k < p.length → 0 < k → ¬ p.drop k <+: q) :
    ∀ k, k < p.length → 0 < k → ¬ p.drop k <+: v := by
  intro k hk h0 hc
  have hlt : (p.drop k).length ≤ q.length := by
    rw [List.length_drop]
    omega
  exact hno k hk h0 (List.prefix_of_prefix_length_le hc hq hlt)

theorem noOcc_single_of_not_mem (c : Char) (x : Str) (h : c ∉ x) : noOcc [c] x := by
  intro j hc
  obtain ⟨r, hr⟩ := hc
  apply h
  apply List.mem_of_mem_drop (n := j)
  rw [← hr]
  exact List.mem_cons_self c r

theorem noOcc_of_two_le (p x : Str) (h2 : 2 ≤ p.length) (hx : x.length ≤ 1) :
    noOcc p x := by
  intro j hc
  have := hc.length_le
  rw [List.length_drop] at this
  omega

/-! Border-freeness and cross-occurrence facts of the concrete markers,
established by computation. -/

theorem border_cStart :
    ∀ k, k < cStartMarker.length → 0 < k → ¬ cStartMarker.drop k <+: cStartMarker := by
  decide

theorem border_cEnd :
    ∀ k, k < cEndMarker.length → 0 < k → ¬ cEndMarker.drop k <+: cEndMarker := by
  decide

theorem cross_cEnd_cStart :
    ∀ k, k < cEndMarker.length → 0 < k → ¬ cEndMarker.drop k <+: cStartMarker := by
  decide

theorem cross_cEnd_nl :
    ∀ k, k < cEndMarker.length → 0 < k → ¬ cEndMarker.drop k <+: ['\n'] := by
  decide

theorem border_pStart :
    ∀ k, k < pStartMarker.length → 0 < k → ¬ pStartMarker.drop k <+: pStartMarker := by
  decide

theorem border_pEnd :
    ∀ k, k < pEndMarker.length → 0 < k → ¬ pEndMarker.drop k <+: pEndMarker := by
  decide

theorem cross_pEnd_pStart :
    ∀ k, k < pEndMarker.length → 0 < k → ¬ pEndMarker.drop k <+: pStartMarker := by
  decide

/-- A document in which the classic end marker occurs before the start
marker: splicing duplicates material instead of being idempotent. -/
def c3doc : Str := cEndMarker ++ toL "\n" ++ cStartMarker ++ toL "\nTAIL"

/-- A rendered classic leaderboard: starts with the start marker and never
contains the end marker, as generate_main_scoreboard's output does. -/
def c3gen : Str := cStartMarker ++ toL "\nBODY"

/-- C3 counterexample: on a document whose end marker precedes its start
marker the first classic splice succeeds, but running the splice again on
its output produces different bytes — the claimed idempotence fails. -/
theorem claim3_idempotence_cex :
    (update_readme_with_scoreboard c3gen c3doc).isSome = true ∧
    (update_readme_with_scoreboard c3gen c3doc).bind
        (update_readme_with_scoreboard c3gen) ≠
      update_readme_with_scoreboard c3gen c3doc := by
  refine ⟨by decide, by decide⟩

/-- C3 (amended): the splice is idempotent on well-formed inputs: whenever
the first occurrence of the start marker does not come after the first
occurrence of the end marker, and the rendered content begins with the
start marker and contains the end marker only as generation places it —
nowhere for the classic renderer, exactly once and at the very end followed
by a newline for the package renderer (whose replaced span also needs the
newline after the end marker that the generated content guarantees) — a
second run reproduces the first run's output byte for byte, for both
splicers. -/
theorem claim3_idempotence_amended :
    (∀ (G doc : Str) (s e : Nat),
      findSub doc cStartMarker = some s → findSub doc cEndMarker = some e →
      s ≤ e → cStartMarker <+: G → noOcc cEndMarker G →
      update_readme_with_scoreboard G doc =
        some (doc.take s ++ G ++ ['\n'] ++ doc.drop e) ∧
      update_readme_with_scoreboard G (doc.take s ++ G ++ ['\n'] ++ doc.drop e) =
        some (doc.take s ++ G ++ ['\n'] ++ doc.drop e)) ∧
    (∀ (G A doc : Str) (s e q : Nat),
      findSub doc pStartMarker = some s → findSub doc pEndMarker = some e →
      s ≤ e → findCharFrom doc '\n' e = some q →
      pStartMarker <+: G → G = A ++ pEndMarker ++ ['\n'] → noOcc pEndMarker A →
      update_readme_with_package_scoreboard G doc =
        some (doc.take s ++ G ++ doc.drop (q + 1)) ∧
      update_readme_with_package_scoreboard G (doc.take s ++ G ++ doc.drop (q + 1)) =
        some (doc.take s ++ G ++ doc.drop (q + 1))) := by
  constructor
  · intro G doc s e h1 h2 hse hG hnoG
    have hcs_ne : cStartMarker ≠ [] := by decide
    have hce_ne : cEndMarker ≠ [] := by decide
    have hs_lt : s < doc.length := findSub_lt_length doc cStartMarker s h1 hcs_ne
    have htke : (doc.take s).length = s := by
      rw [List.length_take]
      omega
    refine ⟨by unfold update_readme_with_scoreboard; rw [h1, h2], ?_⟩
    have hvpre : cStartMarker <+: G ++ (['\n'] ++ doc.drop e) :=
      hG.trans (List.prefix_append G _)
    have hf1 : findSub (doc.take s ++ G ++ ['\n'] ++ doc.drop e) cStartMarker =
        some s := by
      rw [show doc.take s ++ G ++ ['\n'] ++ doc.drop e =
          doc.take s ++ (G ++ (['\n'] ++ doc.drop e)) by simp [List.append_assoc]]
      rw [findSub_append_found cStartMarker _ _ 0
        (noOcc_take doc cStartMarker s s hcs_ne le_rfl
          (findSub_some doc cStartMarker s h1).2)
        (cross_from_anchor cStartMarker cStartMarker _ hvpre le_rfl border_cStart)
        (findSub_eq_zero _ _ hvpre)]
      rw [htke, Nat.add_zero]
    have hulen : (doc.take s ++ (G ++ ['\n'])).length = s + G.length + 1 := by
      simp only [List.length_append, List.length_cons, List.length_nil, htke]
      omega
    have hnoU : noOcc cEndMarker (doc.take s ++ (G ++ ['\n'])) := by
      apply noOcc_append
      · exact noOcc_take doc cEndMarker s e hce_ne hse
          (findSub_some doc cEndMarker e h2).2
      · apply noOcc_append
        · exact hnoG
        · exact noOcc_of_two_le cEndMarker ['\n'] (by decide) (by decide)
        · exact cross_cEnd_nl
      · exact cross_from_anchor cEndMarker cStartMarker _
          (hG.trans (List.prefix_append G _)) (by decide) cross_cEnd_cStart
    have hf2 : findSub (doc.take s ++ G ++ ['\n'] ++ doc.drop e) cEndMarker =
        some (s + G.length + 1) := by
      rw [show doc.take s ++ G ++ ['\n'] ++ doc.drop e =
          (doc.take s ++ (G ++ ['\n'])) ++ doc.drop e by simp [List.append_assoc]]
      rw [findSub_append_found cEndMarker _ _ 0 hnoU
        (cross_from_anchor cEndMarker cEndMarker _
          (findSub_some doc cEndMarker e h2).1 le_rfl border_cEnd)
        (findSub_eq_zero _ _ (findSub_some doc cEndMarker e h2).1)]
      rw [hulen]
    have htake : (doc.take s ++ G ++ ['\n'] ++ doc.drop e).take s = doc.take s := by
      rw [show doc.take s ++ G ++ ['\n'] ++ doc.drop e =
          doc.take s ++ (G ++ (['\n'] ++ doc.drop e)) by simp [List.append_assoc]]
      exact List.take_left' htke
    have hdrop : (doc.take s ++ G ++ ['\n'] ++ doc.drop e).drop (s + G.length + 1) =
        doc.drop e := by
      rw [show doc.take s ++ G ++ ['\n'] ++ doc.drop e =
          (doc.take s ++ (G ++ ['\n'])) ++ doc.drop e by simp [List.append_assoc]]
      exact List.drop_left' hulen
    unfold update_readme_with_scoreboard
    rw [hf1, hf2]
    dsimp only
    rw [htake, hdrop]
  · intro G A doc s e q h1 h2 hse hq hG hGeq hA
    have hps_ne : pStartMarker ≠ [] := by decide
    have hpe_ne : pEndMarker ≠ [] := by decide
    have hs_lt : s < doc.length := findSub_lt_length doc pStartMarker s h1 hps_ne
    have htke : (doc.take s).length = s := by
      rw [List.length_take]
      omega
    refine ⟨?_, ?_⟩
    · unfold update_readme_with_package_scoreboard
      rw [h1]
      dsimp only
      rw [h2]
      dsimp only
      rw [hq]
    · have hGpre : pStartMarker <+: G ++ doc.drop (q + 1) :=
        hG.trans (List.prefix_append G _)
      have hg1 : findSub (doc.take s ++ G ++ doc.drop (q + 1)) pStartMarker =
          some s := by
        rw [show doc.take s ++ G ++ doc.drop (q + 1) =
            doc.take s ++ (G ++ doc.drop (q + 1)) by simp [List.append_assoc]]
        rw [findSub_append_found pStartMarker _ _ 0
          (noOcc_take doc pStartMarker s s hps_ne le_rfl
            (findSub_some doc pStartMarker s h1).2)
          (cross_from_anchor pStartMarker pStartMarker _ hGpre le_rfl border_pStart)
          (findSub_eq_zero _ _ hGpre)]
        rw [htke, Nat.add_zero]
      have hAG : A <+: G := by
        rw [hGeq]
        exact ⟨pEndMarker ++ ['\n'], by simp [List.append_assoc]⟩
      have hGlong : pStartMarker <+: G := hG
      have hcrossA : ∀ k, k < pEndMarker.length → 0 < k →
          ¬ pEndMarker.drop k <+: A := by
        intro k hk h0 hc
        exact cross_from_anchor pEndMarker pStartMarker G hGlong (by decide)
          cross_pEnd_pStart k hk h0 (hc.trans hAG)
      have hnoUA : noOcc pEndMarker (doc.take s ++ A) :=
        noOcc_append pEndMarker _ _
          (noOcc_take doc pEndMarker s e hpe_ne hse
            (findSub_some doc pEndMarker e h2).2)
          hA hcrossA
      have huAlen : (doc.take s ++ A).length = s + A.length := by
        rw [List.length_append, htke]
      have hsplit : doc.take s ++ G ++ doc.drop (q + 1) =
          (doc.take s ++ A) ++ (pEndMarker ++ (['\n'] ++ doc.drop (q + 1))) := by
        rw [hGeq]
        simp [List.append_assoc]
      have hg2 : findSub (doc.take s ++ G ++ doc.drop (q + 1)) pEndMarker =
          some (s + A.length) := by
        rw [hsplit]
        rw [findSub_append_found pEndMarker _ _ 0 hnoUA
          (cross_from_anchor pEndMarker pEndMarker _ (List.prefix_append _ _)
            le_rfl border_pEnd)
          (findSub_eq_zero _ _ (List.prefix_append _ _))]
        rw [huAlen, Nat.add_zero]
      have hg3 : findCharFrom (doc.take s ++ G ++ doc.drop (q + 1)) '\n'
          (s + A.length) = some (s + A.length + pEndMarker.length) := by
        unfold findCharFrom findSubFrom
        rw [hsplit, List.drop_left' huAlen]
        rw [findSub_append_found ['\n'] pEndMarker _ 0
          (noOcc_single_of_not_mem '\n' pEndMarker (by decide))
          (fun k hk h0 _ => by
            simp only [List.length_cons, List.length_nil] at hk
            omega)
          (findSub_eq_zero _ _ (List.prefix_append _ _))]
        simp only [Option.map_some']
        rw [show pEndMarker.length + 0 + (s + A.length) =
          s + A.length + pEndMarker.length by omega]
      have htakeP : (doc.take s ++ G ++ doc.drop (q + 1)).take s = doc.take s := by
        rw [show doc.take s ++ G ++ doc.drop (q + 1) =
            doc.take s ++ (G ++ doc.drop (q + 1)) by simp [List.append_assoc]]
        exact List.take_left' htke
      have huGlen : (doc.take s ++ G).length = s + A.length + pEndMarker.length + 1 := by
        rw [List.length_append, htke, hGeq]
        simp only [List.length_append, List.length_cons, List.length_nil]
        omega
      have hdropP : (doc.take s ++ G ++ doc.drop (q + 1)).drop
          (s + A.length + pEndMarker.length + 1) = doc.drop (q + 1) :=
        List.drop_left' huGlen
      unfold update_readme_with_package_scoreboard
      rw [hg1]
      dsimp only
      rw [hg2]
      dsimp only
      rw [hg3]
      dsimp only
      rw [htakeP, hdropP]

/-- Well-formed classic README for the idempotence witness. -/
def c3cdoc : Str := toL "A\n" ++ cStartMarker ++ toL "\nOLD\n" ++ cEndMarker ++ toL "\nB"

/-- Representative rendered classic content for the idempotence witness. -/
def c3cgen : Str := cStartMarker ++ toL "\nNEW"

/-- Body of the representative rendered package content. -/
def c3pA : Str := pStartMarker ++ toL "\nX\n"

/-- Representative rendered package content: ends with the end marker line. -/
def c3pgen : Str := c3pA ++ pEndMarker ++ ['\n']

/-- Well-formed package README for the idempotence witness. -/
def c3pdoc : Str := toL "A\n" ++ pStartMarker ++ toL "\nOLD\n" ++ pEndMarker ++ toL "\nB"

/-- C3 witness: concrete well-formed documents on which both splices are
idempotent. -/
theorem claim3_idempotence_witness :
    (update_readme_with_scoreboard c3cgen c3cdoc =
        some (c3cdoc.take 2 ++ c3cgen ++ ['\n'] ++ c3cdoc.drop 37) ∧
      update_readme_with_scoreboard c3cgen
          (c3cdoc.take 2 ++ c3cgen ++ ['\n'] ++ c3cdoc.drop 37) =
        some (c3cdoc.take 2 ++ c3cgen ++ ['\n'] ++ c3cdoc.drop 37)) ∧
    (update_readme_with_package_scoreboard c3pgen c3pdoc =
        some (c3pdoc.take 2 ++ c3pgen ++ c3pdoc.drop (74 + 1)) ∧
      update_readme_with_package_scoreboard c3pgen
          (c3pdoc.take 2 ++ c3pgen ++ c3pdoc.drop (74 + 1)) =
        some (c3pdoc.take 2 ++ c3pgen ++ c3pdoc.drop (74 + 1))) :=
  ⟨claim3_idempotence_amended.1 c3cgen c3cdoc 2 37 (by decide) (by decide)
     (by decide) (by decide) (noOcc_of_ball _ _ (by decide) (by decide)),
   claim3_idempotence_amended.2 c3pgen c3pA c3pdoc 2 42 74 (by decide) (by decide)
     (by decide) (by decide) (by decide) rfl
     (noOcc_of_ball _ _ (by decide) (by decide))⟩

end SB



